import Mathlib

/-!
# Verification of the statistical aggregation and scoring engine of `src/app.py`

A shallow embedding, in Lean 4, of the scoring core of the repository:
the per-role play aggregation (`get_predictive_index`, merge loops),
the dynamic weight learner (`get_dynamic_weights`), the score normalizer
(`calculate_nexxt_score`) and the trade value adjuster
(`apply_replacement_level`).

Modelling conventions:
* Python floats are modelled as exact rationals (`ℚ`).  Float values that can
  be IEEE NaN (the outputs of `pandas.DataFrame.corr` when a column has zero
  variance, and everything downstream of them) are modelled as `Option ℚ`,
  with `none` playing the role of NaN: arithmetic on `none` is absorbing
  (`Fadd`/`Fmul`), comparisons against `none` are `false` (`Flt`, `FltPos`),
  `pandas` sums skip `none` (`skipnaSum`) while Python's builtin `sum`
  propagates it (`pySum`), exactly as NaN behaves in the source.
* Python `None` in a player record (the nullable advanced metrics `cpoe`,
  `ryoe`, `avg_cushion`) is `Option ℚ` as well; both the weight learner
  (`df.fillna(0)`) and the scorer (`if val is None: val = 0`) coerce it to 0,
  which `metricVal` implements.
* `numpy`'s float square root (inside the Pearson correlation) is modelled by
  the rational `sqrtQ`, exact on perfect squares.  No theorem below depends on
  the value of a correlation, only on its definedness, clipping and
  normalization, so this approximation is inert.
* Python's `int()` truncates toward zero; `pyInt` does the same on `ℚ`.
-/

/-! ## NaN-aware float arithmetic -/

/-- Addition on possibly-NaN floats: NaN propagates, as in Python. -/
def Fadd : Option ℚ → Option ℚ → Option ℚ
  | some a, some b => some (a + b)
  | _, _ => none

/-- Multiplication on possibly-NaN floats: NaN propagates. -/
def Fmul : Option ℚ → Option ℚ → Option ℚ
  | some a, some b => some (a * b)
  | _, _ => none

/-- Comparison `x < c` on a possibly-NaN float: any comparison with NaN is `False`. -/
def Flt (x : Option ℚ) (c : ℚ) : Bool :=
  match x with
  | some a => decide (a < c)
  | none => false

/-- Comparison `0 < x` on a possibly-NaN float: any comparison with NaN is `False`. -/
def FltPos (x : Option ℚ) : Bool :=
  match x with
  | some a => decide (0 < a)
  | none => false

/-- Python's builtin `sum` over floats: a NaN term poisons the result. -/
def pySum : List (Option ℚ) → Option ℚ
  | [] => some 0
  | x :: xs => Fadd x (pySum xs)

/-- Model of `pandas.Series.sum()` (default `skipna=True`): NaN entries are ignored. -/
def skipnaSum (l : List (Option ℚ)) : ℚ :=
  (l.filterMap id).sum

/-- Python's `int()` on a float: truncation toward zero. -/
def pyInt (q : ℚ) : ℤ :=
  Int.sign q.num * ((q.num.natAbs / q.den : ℕ) : ℤ)

/-- Rational square root, exact on perfect squares; models the float `sqrt`
inside `pandas`' Pearson correlation.  (No theorem depends on its values.) -/
def sqrtQ (q : ℚ) : ℚ :=
  if q ≤ 0 then 0 else ((Nat.sqrt (q.num.toNat * q.den) : ℚ) / (q.den : ℚ))

/-! ## Statistics primitives -/

/-- Mean of a list (`pandas` column mean); division by zero yields 0. -/
def listMean (xs : List ℚ) : ℚ :=
  xs.sum / (xs.length : ℚ)

/-- Sum of squared deviations of a column.  It is zero iff the sample standard
deviation computed by `pandas` (`ddof=1`) is zero, which is the guard used by
`get_dynamic_weights`. -/
def listVarSum (xs : List ℚ) : ℚ :=
  (xs.map (fun x => (x - listMean xs) ^ 2)).sum

/-- Sum of products of deviations of two zipped columns. -/
def listCovSum (xs ys : List ℚ) : ℚ :=
  ((xs.zip ys).map (fun p => (p.1 - listMean xs) * (p.2 - listMean ys))).sum

/-- Pearson correlation of two columns, as `pandas.DataFrame.corr` computes it:
`NaN` (here `none`) when either column has zero variance, otherwise
`covariance / sqrt(var_x * var_y)` (the `1/(n-1)` factors cancel). -/
def pearsonQ (xs ys : List ℚ) : Option ℚ :=
  if listVarSum xs = 0 ∨ listVarSum ys = 0 then none
  else some (listCovSum xs ys / sqrtQ (listVarSum xs * listVarSum ys))

/-- Model of `scipy.stats.percentileofscore(vals, x, kind='rank')`:
`(left + right + (1 if right > left else 0)) * 50 / n`, where `left` counts
values `< x` and `right` counts values `≤ x`.  Result in `[0, 100]`. -/
def pctRank (vals : List ℚ) (x : ℚ) : ℚ :=
  let left := (vals.filter (fun v => v < x)).length
  let right := (vals.filter (fun v => v ≤ x)).length
  (((left + right + (if left < right then 1 else 0) : ℕ) : ℚ) * 50) / (vals.length : ℚ)

/-- The percentile as `calculate_nexxt_score` uses it: scaled to `[0, 1]`,
defaulting to `0.5` when the ranking population has fewer than 2 members. -/
def pctOrHalf (vals : List ℚ) (x : ℚ) : ℚ :=
  if 1 < vals.length then pctRank vals x / 100 else 0.5

/-! ## The data model: merged per-player stat records -/

/-- The candidate metrics appearing in the position-specific weight
dictionaries of `get_dynamic_weights` (the correlation target `fppg` is a
separate record field). -/
inductive Metric where
  | epa_per_play
  | pass_attempts
  | cpoe
  | ppr_usage_per_game
  | ryoe
  | rz_opps_per_game
  | targets_per_game
  | wopr
  | avg_cushion
deriving DecidableEq, Repr

/-- The fully merged per-player record consumed by scoring (the dictionaries
stored in `stats[sid]` by `get_predictive_index`).  The advanced-tracking
metrics `cpoe`, `ryoe`, `avg_cushion` are nullable (`None` in the source);
every other numeric field is always populated by the aggregation loops. -/
structure PlayerStatRecord where
  position : String
  games_played : ℕ
  fppg : ℚ
  epa_per_play : ℚ
  pass_attempts : ℚ
  cpoe : Option ℚ
  ppr_usage_per_game : ℚ
  ryoe : Option ℚ
  rz_opps_per_game : ℚ
  targets_per_game : ℚ
  wopr : ℚ
  avg_cushion : Option ℚ
  team_epa : ℚ
deriving DecidableEq, Repr

/-- Metric lookup with the source's missing-value policy: the weight learner
runs `df.fillna(0)` and the scorer coerces `None` to `0` for the nullable
metrics (`if metric in ['cpoe', 'ryoe', 'avg_cushion'] and val is None:
val = 0`), so a null metric is read as 0 at both call sites. -/
def metricVal (r : PlayerStatRecord) : Metric → ℚ
  | .epa_per_play => r.epa_per_play
  | .pass_attempts => r.pass_attempts
  | .cpoe => r.cpoe.getD 0
  | .ppr_usage_per_game => r.ppr_usage_per_game
  | .ryoe => r.ryoe.getD 0
  | .rz_opps_per_game => r.rz_opps_per_game
  | .targets_per_game => r.targets_per_game
  | .wopr => r.wopr
  | .avg_cushion => r.avg_cushion.getD 0

/-- A weight dictionary: metric keys in insertion order, possibly-NaN values. -/
abbrev WVec := List (Metric × Option ℚ)

/-! ## The dynamic weight learner (`get_dynamic_weights`) -/

/-- Static fallback weights for quarterbacks. -/
def qbFallback : WVec :=
  [(.epa_per_play, some 0.4), (.pass_attempts, some 0.3), (.cpoe, some 0.3)]

/-- Static fallback weights for running backs. -/
def rbFallback : WVec :=
  [(.ppr_usage_per_game, some 0.4), (.ryoe, some 0.3),
   (.rz_opps_per_game, some 0.2), (.targets_per_game, some 0.1)]

/-- Static fallback weights for receivers and tight ends. -/
def wrFallback : WVec :=
  [(.wopr, some 0.5), (.targets_per_game, some 0.3), (.rz_opps_per_game, some 0.2)]

/-- The position dispatch at the top of `get_dynamic_weights`: the candidate
metric list (minus the correlation target `fppg`, which `corr.drop('fppg')`
removes) and the static fallback dictionary; `None` for other positions. -/
def posConfig (pos : String) : Option (List Metric × WVec) :=
  if pos = "QB" then some ([.epa_per_play, .pass_attempts, .cpoe], qbFallback)
  else if pos = "RB" then
    some ([.ppr_usage_per_game, .ryoe, .rz_opps_per_game, .targets_per_game], rbFallback)
  else if pos = "WR" ∨ pos = "TE" then
    some ([.wopr, .targets_per_game, .rz_opps_per_game], wrFallback)
  else none

/-- The qualifying population: position match and at least 3 games played. -/
def qualifying (pop : List PlayerStatRecord) (pos : String) : List PlayerStatRecord :=
  pop.filter (fun p => p.position = pos ∧ 3 ≤ p.games_played)

/-- Model of `corr.clip(lower=0.01)`: NaN stays NaN, defined values are floored. -/
def clipCorr (c : Option ℚ) : Option ℚ :=
  c.map (fun r => max r 0.01)

/-- The clipped correlation column of `get_dynamic_weights`: one possibly-NaN
entry per candidate metric, correlated against the `fppg` column. -/
def corrList (data : List PlayerStatRecord) (cands : List Metric) : WVec :=
  cands.map (fun m =>
    (m, clipCorr (pearsonQ (data.map (fun r => metricVal r m)) (data.map (·.fppg)))))

/-- Model of `weights = (corr / corr.sum()).to_dict()`: every entry divided by the
skip-NaN sum; NaN entries stay NaN. -/
def normalizeW (S : ℚ) (l : WVec) : WVec :=
  l.map (fun p => (p.1, p.2.map (fun c => c / S)))

/-- The post-processing floor of `get_dynamic_weights`: if metric `m` is in
the dictionary and its weight is `< 0.2`, force it to `0.35` and rescale the
other weights by `0.65 / other_sum` when `other_sum > 0`.  The comparison
with a NaN weight is `False`, and a NaN among the other weights makes
`other_sum` NaN (so no rescale), as in the source. -/
def floorOn (m : Metric) (w : WVec) : WVec :=
  match (w.find? (fun p => p.1 = m)).map Prod.snd with
  | none => w
  | some c =>
    if Flt c 0.2 then
      let w1 := w.map (fun p => if p.1 = m then (p.1, some 0.35) else p)
      let osum := pySum ((w1.filter (fun p => ¬ p.1 = m)).map Prod.snd)
      match osum with
      | some s =>
        if 0 < s then
          w1.map (fun p => if p.1 = m then p else (p.1, p.2.map (fun c => c * (0.65 / s))))
        else w1
      | none => w1
    else w

/-- The two position-specific floor blocks at the end of `get_dynamic_weights`. -/
def applyFloors (pos : String) (w : WVec) : WVec :=
  if pos = "RB" then floorOn .targets_per_game w
  else if pos = "WR" ∨ pos = "TE" then floorOn .wopr w
  else w

/-- Model of `get_dynamic_weights(all_player_stats, position)`.  `none` models the
Python `return None` for unrecognized positions.  The guard rails (fewer than
10 qualifying players, zero `fppg` variance, zero clipped-correlation sum)
return the static fallback; otherwise the clipped correlations are normalized
to the skip-NaN sum and the position floors applied.  (The
`available_metrics` check of the source is vacuous here: every candidate
metric is a field of `PlayerStatRecord`, as it is a key of every record the
aggregator builds for that position.) -/
def get_dynamic_weights (pop : List PlayerStatRecord) (pos : String) : Option WVec :=
  match posConfig pos with
  | none => none
  | some (cands, fb) =>
    let data := qualifying pop pos
    if data.length < 10 then some fb
    else if listVarSum (data.map (·.fppg)) = 0 then some fb
    else
      let cl := corrList data cands
      let S := skipnaSum (cl.map Prod.snd)
      if S = 0 then some fb
      else some (applyFloors pos (normalizeW S cl))

/-! ## The score normalizer (`calculate_nexxt_score`) -/

/-- The position peers used for percentile ranking: same position tag and at
least 1 game played. -/
def peersOf (pop : List PlayerStatRecord) (pos : String) : List PlayerStatRecord :=
  pop.filter (fun p => p.position = pos ∧ 1 ≤ p.games_played)

/-- Model of `calculate_nexxt_score(player_data, pos, all_player_stats)`.  The argument
`pd = none` models a falsy `player_data` (absent or empty record) and returns
the neutral 50 immediately; an empty peer population also returns 50.  The
result is `none` when the Python function raises instead of returning: on an
unrecognized position (attribute error on `None.keys()`) or when a NaN weight
poisons `stat_score` (`int(nan)` raises `ValueError`). -/
def calculate_nexxt_score (pd : Option PlayerStatRecord) (pos : String)
    (pop : List PlayerStatRecord) : Option ℤ :=
  match pd with
  | none => some 50
  | some r =>
    let sample_size_penalty : ℚ := if r.games_played < 3 then 0.91 else 1.0
    let peers := peersOf pop pos
    if peers = [] then some 50
    else
      match get_dynamic_weights pop pos with
      | none => none
      | some w =>
        let fppg_percentile := pctOrHalf (peers.map (·.fppg)) r.fppg
        let stat_score := pySum (w.map (fun p =>
          Fmul (some (pctOrHalf (peers.map (fun q => metricVal q p.1)) (metricVal r p.1))) p.2))
        match stat_score with
        | none => none
        | some ss =>
          let raw_score := ((fppg_percentile * 0.50) + (ss * 0.50)) * 100 * sample_size_penalty
          some (max 10 (min 99 (pyInt raw_score)))

/-! ## The trade value adjuster (`apply_replacement_level`) -/

/-- Model of `apply_replacement_level(nexxt_score)`: the five-tier step function. -/
def apply_replacement_level (s : ℚ) : ℚ × String :=
  if 90 ≤ s then (1.3, "Elite (1.3x)")
  else if 80 ≤ s then (1.0, "High Starter (1.0x)")
  else if 70 ≤ s then (0.8, "Low Starter (0.8x)")
  else if 60 ≤ s then (0.4, "High Scrub (0.4x)")
  else (0.2, "Scrub (0.2x)")

/-- The spec's description of the trade adjuster (§4.6), written with the
explicit two-sided tier intervals of the claim, for comparison with the
source's `elif` chain. -/
def spec_trade_step (s : ℚ) : ℚ × String :=
  if 90 ≤ s then (1.3, "Elite (1.3x)")
  else if 80 ≤ s ∧ s < 90 then (1.0, "High Starter (1.0x)")
  else if 70 ≤ s ∧ s < 80 then (0.8, "Low Starter (0.8x)")
  else if 60 ≤ s ∧ s < 70 then (0.4, "High Scrub (0.4x)")
  else (0.2, "Scrub (0.2x)")

/-! ## The play aggregator's per-player merge (`get_predictive_index`) -/

/-- The grouped passing row of one player (`qb_stats`): distinct games and
summed counting stats. -/
structure PassAgg where
  games : ℕ
  yards : ℚ
  tds : ℚ
  ints : ℚ
deriving DecidableEq, Repr

/-- The grouped rushing row of one player (`rusher_stats`). -/
structure RushAgg where
  games : ℕ
  yards : ℚ
  tds : ℚ
  carries : ℚ
  rzCarries : ℚ
  fumbles : ℚ
deriving DecidableEq, Repr

/-- The grouped receiving row of one player (`receiver_stats`). -/
structure RecAgg where
  games : ℕ
  receptions : ℚ
  yards : ℚ
  tds : ℚ
  targets : ℚ
  rzTargets : ℚ
  fumbles : ℚ
deriving DecidableEq, Repr

/-- One entry of `per_game_dict`: the aggregator's per-player profile. -/
structure PlayerGameProfile where
  games_played : ℕ
  fppg : ℚ
  targets_per_game : ℚ
  carries_per_game : ℚ
  rz_opps_per_game : ℚ
deriving DecidableEq, Repr

/-- The passing loop's dictionary entry for one player. -/
def passProfile (a : PassAgg) : PlayerGameProfile :=
  let g := max a.games 1
  { games_played := g
    fppg := (a.yards * 0.04 + a.tds * 4 - a.ints * 2) / (g : ℚ)
    targets_per_game := 0
    carries_per_game := 0
    rz_opps_per_game := 0 }

/-- The rushing loop's merge for one player: when an entry already exists
(from the passing loop) it adds the rushing points per rushing game and sets
the rushing rates, leaving `games_played` untouched; otherwise it creates a
fresh entry with the rushing game count. -/
def applyRushing (d : Option PlayerGameProfile) (a : RushAgg) : PlayerGameProfile :=
  let g := max a.games 1
  let fp := a.yards * 0.1 + a.tds * 6 - a.fumbles * 2
  match d with
  | some prof =>
    { prof with
      fppg := prof.fppg + fp / (g : ℚ)
      carries_per_game := a.carries / (g : ℚ)
      rz_opps_per_game := a.rzCarries / (g : ℚ) }
  | none =>
    { games_played := g
      fppg := fp / (g : ℚ)
      targets_per_game := 0
      carries_per_game := a.carries / (g : ℚ)
      rz_opps_per_game := a.rzCarries / (g : ℚ) }

/-- The receiving loop's merge for one player: when an entry already exists it
adds the receiving points per receiving game, sets targets per receiving game,
adds red-zone targets per receiving game, and takes the maximum of the game
counts; otherwise it creates a fresh receiver entry. -/
def applyReceiving (d : Option PlayerGameProfile) (a : RecAgg) : PlayerGameProfile :=
  let g := max a.games 1
  let fp := a.yards * 0.1 + a.tds * 6 + a.receptions * 1.0 - a.fumbles * 2
  match d with
  | some prof =>
    { prof with
      fppg := prof.fppg + fp / (g : ℚ)
      targets_per_game := a.targets / (g : ℚ)
      rz_opps_per_game := prof.rz_opps_per_game + a.rzTargets / (g : ℚ)
      games_played := max prof.games_played g }
  | none =>
    { games_played := g
      fppg := fp / (g : ℚ)
      targets_per_game := a.targets / (g : ℚ)
      carries_per_game := 0
      rz_opps_per_game := a.rzTargets / (g : ℚ) }

/-- The effect of the three sequential aggregation loops on one player's
`per_game_dict` entry, given the player's (optional) grouped row in each role:
passing first, then rushing, then receiving. -/
def buildProfile (p : Option PassAgg) (ru : Option RushAgg) (re : Option RecAgg) :
    Option PlayerGameProfile :=
  let d0 := p.map passProfile
  let d1 := match ru with
    | none => d0
    | some a => some (applyRushing d0 a)
  match re with
  | none => d1
  | some a => some (applyReceiving d1 a)

/-! ## Spec-side comparison definitions -/

/-- The spec's percentile description (§4.5 step 1, claim C6): the fraction of
peers whose value is lower than or equal to the player's value, scaled to
`[0, 1]`. -/
def spec_frac_le (vals : List ℚ) (x : ℚ) : ℚ :=
  ((vals.filter (fun v => v ≤ x)).length : ℚ) / (vals.length : ℚ)

/-- Normalization that replaces every null advanced metric of a record by an
explicit zero, used to state that the scorer treats null as 0 (claim C9). -/
def fillNulls (r : PlayerStatRecord) : PlayerStatRecord :=
  { r with
    cpoe := some (r.cpoe.getD 0)
    ryoe := some (r.ryoe.getD 0)
    avg_cushion := some (r.avg_cushion.getD 0) }

/-! ## Concrete probe records and populations -/

/-- A quarterback record with the given games, fppg, EPA, attempts and CPOE. -/
def qbProbe (g : ℕ) (f e pa : ℚ) (c : Option ℚ) : PlayerStatRecord :=
  { position := "QB", games_played := g, fppg := f, epa_per_play := e,
    pass_attempts := pa, cpoe := c, ppr_usage_per_game := 0, ryoe := none,
    rz_opps_per_game := 0, targets_per_game := 0, wopr := 0, avg_cushion := none,
    team_epa := 0 }

/-- Three one-game quarterbacks; the first dominates every ranked metric, so
its raw score is the maximal 100 before the sample-size penalty. -/
def popPenalty : List PlayerStatRecord :=
  [qbProbe 1 10 5 30 (some 5), qbProbe 1 1 1 1 (some 1), qbProbe 1 2 2 2 (some 2)]

/-- A three-game quarterback whose CPOE is null (no tracking data). -/
def qbFlat (f e pa : ℚ) : PlayerStatRecord :=
  { position := "QB", games_played := 3, fppg := f, epa_per_play := e,
    pass_attempts := pa, cpoe := none, ppr_usage_per_game := 0, ryoe := none,
    rz_opps_per_game := 0, targets_per_game := 0, wopr := 0, avg_cushion := none,
    team_epa := 0 }

/-- Ten qualifying quarterbacks with varying fppg but all-null CPOE: the CPOE
column is constant zero after `fillna(0)`, so its correlation is NaN. -/
def popNaN : List PlayerStatRecord :=
  [qbFlat 1 1 1, qbFlat 1 2 2, qbFlat 1 1 1, qbFlat 1 2 2, qbFlat 1 1 1,
   qbFlat 2 1 1, qbFlat 2 2 2, qbFlat 2 1 1, qbFlat 2 2 2, qbFlat 2 1 1]

/-- A three-game running back whose four candidate metrics all equal `m`. -/
def rbFlat (f m : ℚ) : PlayerStatRecord :=
  { position := "RB", games_played := 3, fppg := f, epa_per_play := 0,
    pass_attempts := 0, cpoe := none, ppr_usage_per_game := m, ryoe := some m,
    rz_opps_per_game := m, targets_per_game := m, wopr := 0, avg_cushion := none,
    team_epa := 0 }

/-- A three-game receiver whose three candidate metrics all equal `m`. -/
def wrFlat (f m : ℚ) : PlayerStatRecord :=
  { position := "WR", games_played := 3, fppg := f, epa_per_play := 0,
    pass_attempts := 0, cpoe := none, ppr_usage_per_game := 0, ryoe := none,
    rz_opps_per_game := m, targets_per_game := m, wopr := m, avg_cushion := none,
    team_epa := 0 }

/-- Ten qualifying running backs whose metric columns are orthogonal to the
fppg column (zero covariance), driving the correlation path with r = 0 for
every metric, hence equal clipped weights. -/
def popLearnRB : List PlayerStatRecord :=
  [rbFlat 1 1, rbFlat 1 2, rbFlat 1 1, rbFlat 1 2, rbFlat 1 1,
   rbFlat 2 1, rbFlat 2 2, rbFlat 2 1, rbFlat 2 2, rbFlat 2 1]

/-- Ten qualifying receivers, same design as `popLearnRB`. -/
def popLearnWR : List PlayerStatRecord :=
  [wrFlat 1 1, wrFlat 1 2, wrFlat 1 1, wrFlat 1 2, wrFlat 1 1,
   wrFlat 2 1, wrFlat 2 2, wrFlat 2 1, wrFlat 2 2, wrFlat 2 1]

/-! ## Helper lemmas: NaN-aware sums -/

theorem pySum_eq_none_iff (l : List (Option ℚ)) : pySum l = none ↔ none ∈ l := by
  induction l with
  | nil => simp [pySum]
  | cons x xs ih =>
    cases x with
    | none => simp [pySum, Fadd]
    | some a =>
      cases h : pySum xs with
      | none => simp [pySum, Fadd, h, ih.mp h]
      | some b =>
        simp only [pySum, Fadd, h]
        simp [← ih, h]

theorem pySum_of_all_some (l : List (Option ℚ)) (h : ∀ x ∈ l, x ≠ none) :
    pySum l = some ((l.filterMap id).sum) := by
  induction l with
  | nil => simp [pySum]
  | cons x xs ih =>
    cases x with
    | none => exact absurd rfl (h none (by simp))
    | some a =>
      rw [pySum, ih (fun x hx => h x (by simp [hx]))]
      simp [Fadd, List.filterMap_cons]

theorem skipnaSum_nonneg (l : List (Option ℚ)) (h : ∀ q : ℚ, some q ∈ l → 0 ≤ q) :
    0 ≤ skipnaSum l := by
  refine List.sum_nonneg (fun q hq => ?_)
  rw [List.mem_filterMap] at hq
  obtain ⟨x, hx, hxq⟩ := hq
  simp only [id_eq] at hxq
  subst hxq
  exact h q hx

theorem skipnaSum_of_all_some (l : List (Option ℚ)) (h : ∀ x ∈ l, x ≠ none) :
    some (skipnaSum l) = pySum l := by
  rw [pySum_of_all_some l h, skipnaSum]

/-! ## Helper lemmas: the percentile primitive -/

theorem length_filter_le_split (l : List ℚ) (x : ℚ) :
    (l.filter (fun v => v ≤ x)).length
      = (l.filter (fun v => v < x)).length + (l.filter (fun v => v = x)).length := by
  induction l with
  | nil => simp
  | cons a t ih =>
    by_cases h1 : a < x
    · have h2 : a ≤ x := h1.le
      have h3 : ¬ a = x := ne_of_lt h1
      simp [List.filter_cons, h1, h2, h3, ih]
      omega
    · by_cases h2 : a = x
      · subst h2
        simp [List.filter_cons, lt_irrefl, ih]
        omega
      · have h3 : ¬ a ≤ x := by
          rw [le_iff_lt_or_eq]
          tauto
        simp [List.filter_cons, h1, h2, h3, ih]

theorem pctRank_nonneg (vals : List ℚ) (x : ℚ) : 0 ≤ pctRank vals x := by
  unfold pctRank
  positivity

theorem pctRank_le_100 (vals : List ℚ) (x : ℚ) : pctRank vals x ≤ 100 := by
  unfold pctRank
  rcases Nat.eq_zero_or_pos vals.length with h0 | hpos
  · rw [h0]
    norm_num
  · set left := (vals.filter (fun v => v < x)).length with hleft
    set right := (vals.filter (fun v => v ≤ x)).length with hright
    have hl : left ≤ vals.length := List.length_filter_le _ _
    have hr : right ≤ vals.length := List.length_filter_le _ _
    have hkey : left + right + (if left < right then 1 else 0) ≤ 2 * vals.length := by
      by_cases h : left < right
      · simp only [if_pos h]
        omega
      · simp only [if_neg h]
        omega
    rw [div_le_iff₀ (by exact_mod_cast hpos)]
    calc ((left + right + (if left < right then 1 else 0) : ℕ) : ℚ) * 50
        ≤ ((2 * vals.length : ℕ) : ℚ) * 50 := by
          have : ((left + right + (if left < right then 1 else 0) : ℕ) : ℚ)
              ≤ ((2 * vals.length : ℕ) : ℚ) := by exact_mod_cast hkey
          linarith
      _ = 100 * (vals.length : ℚ) := by push_cast; ring

theorem pctOrHalf_nonneg (vals : List ℚ) (x : ℚ) : 0 ≤ pctOrHalf vals x := by
  unfold pctOrHalf
  split
  · have := pctRank_nonneg vals x
    linarith
  · norm_num

theorem pctOrHalf_le_one (vals : List ℚ) (x : ℚ) : pctOrHalf vals x ≤ 1 := by
  unfold pctOrHalf
  split
  · have := pctRank_le_100 vals x
    linarith
  · norm_num

/-! ## Helper lemmas: Python `int` truncation -/

theorem pyInt_le_of_le (q : ℚ) (n : ℤ) (h0 : 0 ≤ q) (hn : q ≤ (n : ℚ)) : pyInt q ≤ n := by
  have hnum : 0 ≤ q.num := Rat.num_nonneg.mpr h0
  rcases lt_or_eq_of_le hnum with hpos | hzero
  · have hsign : Int.sign q.num = 1 := Int.sign_eq_one_of_pos hpos
    have hcast : ((q.num.natAbs / q.den : ℕ) : ℚ) ≤ (n : ℚ) := by
      calc ((q.num.natAbs / q.den : ℕ) : ℚ) ≤ (q.num.natAbs : ℚ) / (q.den : ℚ) :=
            Nat.cast_div_le
        _ = (q.num : ℚ) / (q.den : ℚ) := by
            rw [Int.cast_natAbs, abs_of_nonneg (by exact_mod_cast hnum)]
        _ = q := Rat.num_div_den q
        _ ≤ (n : ℚ) := hn
    have : ((q.num.natAbs / q.den : ℕ) : ℤ) ≤ n := by
      have h4 : (((q.num.natAbs / q.den : ℕ) : ℤ) : ℚ) ≤ ((n : ℤ) : ℚ) := by
        rw [Int.cast_natCast]
        exact hcast
      exact Int.cast_le.mp h4
    rw [pyInt, hsign, one_mul]
    exact this
  · have hq0 : (0 : ℚ) ≤ (n : ℚ) := le_trans h0 hn
    rw [pyInt, ← hzero]
    simpa using (by exact_mod_cast hq0 : (0 : ℤ) ≤ n)

/-! ## Helper lemmas: clipped correlations and normalization -/

theorem clipCorr_defined (c : Option ℚ) (q : ℚ) (h : clipCorr c = some q) : (0.01 : ℚ) ≤ q := by
  cases c with
  | none => simp [clipCorr] at h
  | some r =>
    simp only [clipCorr, Option.map_some', Option.some.injEq] at h
    rw [← h]
    exact le_max_right r 0.01

theorem corrList_keys (data : List PlayerStatRecord) (cands : List Metric) :
    (corrList data cands).map Prod.fst = cands := by
  induction cands with
  | nil => rfl
  | cons m t ih => simp [corrList] at ih ⊢; exact ih

theorem normalizeW_keys (S : ℚ) (l : WVec) :
    (normalizeW S l).map Prod.fst = l.map Prod.fst := by
  simp [normalizeW, List.map_map, Function.comp]

theorem normalizeW_snd (S : ℚ) (l : WVec) :
    (normalizeW S l).map Prod.snd = (l.map Prod.snd).map (Option.map (fun c => c / S)) := by
  simp [normalizeW, List.map_map, Function.comp]

theorem corrList_snd_clip (data : List PlayerStatRecord) (cands : List Metric)
    (x : Option ℚ) (hx : x ∈ (corrList data cands).map Prod.snd) :
    ∃ c, x = clipCorr c := by
  simp only [corrList, List.map_map, List.mem_map, Function.comp] at hx
  obtain ⟨m, _, hm⟩ := hx
  exact ⟨_, hm.symm⟩

theorem corrS_nonneg (data : List PlayerStatRecord) (cands : List Metric) :
    0 ≤ skipnaSum ((corrList data cands).map Prod.snd) := by
  refine skipnaSum_nonneg _ (fun q hq => ?_)
  obtain ⟨c, hc⟩ := corrList_snd_clip data cands (some q) hq
  have := clipCorr_defined c q hc.symm
  linarith

theorem pySum_map_div (l : List (Option ℚ)) (S : ℚ) (h : ∀ x ∈ l, x ≠ none) :
    pySum (l.map (Option.map (fun c => c / S))) = some (skipnaSum l / S) := by
  induction l with
  | nil => simp [pySum, skipnaSum]
  | cons x xs ih =>
    cases x with
    | none => exact absurd rfl (h none (by simp))
    | some a =>
      rw [List.map_cons, pySum, ih (fun x hx => h x (by simp [hx]))]
      simp only [Option.map_some', Fadd, skipnaSum, List.filterMap_cons, id_eq, List.sum_cons]
      rw [div_add_div_same]

/-- Every defined entry of the normalized correlation weights is positive. -/
theorem norm_pos (data : List PlayerStatRecord) (cands : List Metric)
    (hS : skipnaSum ((corrList data cands).map Prod.snd) ≠ 0)
    (p : Metric × Option ℚ)
    (hp : p ∈ normalizeW (skipnaSum ((corrList data cands).map Prod.snd)) (corrList data cands))
    (q : ℚ) (hq : p.2 = some q) : 0 < q := by
  set S := skipnaSum ((corrList data cands).map Prod.snd) with hSdef
  have hSpos : 0 < S := lt_of_le_of_ne (corrS_nonneg data cands) (Ne.symm hS)
  simp only [normalizeW, List.mem_map] at hp
  obtain ⟨p0, hp0, rfl⟩ := hp
  simp only at hq
  cases h2 : p0.2 with
  | none => rw [h2] at hq; simp at hq
  | some c =>
    rw [h2] at hq
    simp only [Option.map_some', Option.some.injEq] at hq
    have hcmem : some c ∈ (corrList data cands).map Prod.snd := by
      rw [← h2]
      exact List.mem_map_of_mem Prod.snd hp0
    obtain ⟨c0, hc0⟩ := corrList_snd_clip data cands (some c) hcmem
    have hc : (0.01 : ℚ) ≤ c := clipCorr_defined c0 c hc0.symm
    rw [← hq]
    apply div_pos (by linarith) hSpos

/-- The normalized correlation weights sum (under Python's NaN-poisoning
`sum`) to exactly 1 when every entry is defined, and to NaN otherwise. -/
theorem norm_sum (data : List PlayerStatRecord) (cands : List Metric)
    (hS : skipnaSum ((corrList data cands).map Prod.snd) ≠ 0) :
    pySum ((normalizeW (skipnaSum ((corrList data cands).map Prod.snd)) (corrList data cands)).map Prod.snd) = some 1 ∨
    pySum ((normalizeW (skipnaSum ((corrList data cands).map Prod.snd)) (corrList data cands)).map Prod.snd) = none := by
  set S := skipnaSum ((corrList data cands).map Prod.snd) with hSdef
  rw [normalizeW_snd]
  by_cases hnone : none ∈ (corrList data cands).map Prod.snd
  · right
    rw [pySum_eq_none_iff]
    rw [List.mem_map]
    exact ⟨none, hnone, rfl⟩
  · left
    rw [pySum_map_div _ _ (fun x hx hxn => hnone (hxn ▸ hx)), ← hSdef, div_self hS]

/-! ## Helper lemmas: the weight floors -/

theorem floorOn_rb (v : WVec)
    (hv : v.map Prod.fst
      = [.ppr_usage_per_game, .ryoe, .rz_opps_per_game, .targets_per_game])
    (hpos : ∀ p ∈ v, ∀ q, p.2 = some q → 0 < q)
    (hsum : pySum (v.map Prod.snd) = some 1 ∨ pySum (v.map Prod.snd) = none) :
    (∀ p ∈ floorOn .targets_per_game v, ∀ q, p.2 = some q → 0 < q) ∧
    (pySum ((floorOn .targets_per_game v).map Prod.snd) = some 1 ∨
     pySum ((floorOn .targets_per_game v).map Prod.snd) = none) := by
  rcases v with _ | ⟨⟨k1, x1⟩, _ | ⟨⟨k2, x2⟩, _ | ⟨⟨k3, x3⟩, _ | ⟨⟨k4, x4⟩, _ | ⟨p5, t⟩⟩⟩⟩⟩ <;>
    simp at hv
  obtain ⟨rfl, rfl, rfl, rfl⟩ := hv
  have h1 : ∀ q, x1 = some q → 0 < q :=
    fun q hq => hpos (Metric.ppr_usage_per_game, x1) (by simp) q hq
  have h2 : ∀ q, x2 = some q → 0 < q :=
    fun q hq => hpos (Metric.ryoe, x2) (by simp) q hq
  have h3 : ∀ q, x3 = some q → 0 < q :=
    fun q hq => hpos (Metric.rz_opps_per_game, x3) (by simp) q hq
  have h4 : ∀ q, x4 = some q → 0 < q :=
    fun q hq => hpos (Metric.targets_per_game, x4) (by simp) q hq
  simp only [List.map_cons, List.map_nil] at hsum
  by_cases ht : Flt x4 0.2 = true
  · cases hos : pySum [x1, x2, x3] with
    | none =>
      have hmem : none ∈ [x1, x2, x3] := (pySum_eq_none_iff _).mp hos
      have hred : floorOn .targets_per_game
          [(.ppr_usage_per_game, x1), (.ryoe, x2), (.rz_opps_per_game, x3),
            (.targets_per_game, x4)]
          = [(.ppr_usage_per_game, x1), (.ryoe, x2), (.rz_opps_per_game, x3),
            (.targets_per_game, some 0.35)] := by
        simp [floorOn, ht, hos]
      rw [hred]
      constructor
      · intro p hp q hq
        simp at hp
        rcases hp with hp | hp | hp | hp <;> rw [hp] at hq
        · exact h1 q hq
        · exact h2 q hq
        · exact h3 q hq
        · simp at hq
          rw [← hq]
          norm_num
      · right
        rw [pySum_eq_none_iff]
        have hd : none = x1 ∨ none = x2 ∨ none = x3 := by simpa using hmem
        simp only [List.map_cons, List.map_nil]
        rcases hd with h | h | h <;> simp [← h]
    | some s =>
      have hnn : none ∉ [x1, x2, x3] := by
        intro hc
        rw [← pySum_eq_none_iff] at hc
        rw [hos] at hc
        exact Option.some_ne_none s hc
      rcases Option.ne_none_iff_exists'.mp
        (fun hc : x1 = none => hnn (by simp [hc])) with ⟨q1, rfl⟩
      rcases Option.ne_none_iff_exists'.mp
        (fun hc : x2 = none => hnn (by simp [hc])) with ⟨q2, rfl⟩
      rcases Option.ne_none_iff_exists'.mp
        (fun hc : x3 = none => hnn (by simp [hc])) with ⟨q3, rfl⟩
      have hq1 : 0 < q1 := h1 q1 rfl
      have hq2 : 0 < q2 := h2 q2 rfl
      have hq3 : 0 < q3 := h3 q3 rfl
      have hs : s = q1 + (q2 + (q3 + 0)) := by
        have h0 := hos
        simp only [pySum, Fadd, Option.some.injEq] at h0
        exact h0.symm
      have hspos : 0 < s := by rw [hs]; linarith
      have hred : floorOn .targets_per_game
          [(.ppr_usage_per_game, some q1), (.ryoe, some q2), (.rz_opps_per_game, some q3),
            (.targets_per_game, x4)]
          = [(.ppr_usage_per_game, some (q1 * (0.65 / s))),
             (.ryoe, some (q2 * (0.65 / s))),
             (.rz_opps_per_game, some (q3 * (0.65 / s))),
             (.targets_per_game, some 0.35)] := by
        simp [floorOn, ht, hos, hspos]
      rw [hred]
      constructor
      · intro p hp q hq
        simp at hp
        rcases hp with hp | hp | hp | hp <;> rw [hp] at hq <;> simp at hq <;> rw [← hq]
        · exact mul_pos hq1 (div_pos (by norm_num) hspos)
        · exact mul_pos hq2 (div_pos (by norm_num) hspos)
        · exact mul_pos hq3 (div_pos (by norm_num) hspos)
        · norm_num
      · left
        simp only [List.map_cons, List.map_nil, pySum, Fadd, Option.some.injEq]
        have hne : s ≠ 0 := ne_of_gt hspos
        field_simp
        rw [hs]
        ring
  · constructor
    · intro p hp q hq
      simp [floorOn, ht] at hp
      rcases hp with hp | hp | hp | hp <;> rw [hp] at hq
      · exact h1 q hq
      · exact h2 q hq
      · exact h3 q hq
      · exact h4 q hq
    · simpa [floorOn, ht] using hsum

theorem floorOn_wr (v : WVec)
    (hv : v.map Prod.fst = [.wopr, .targets_per_game, .rz_opps_per_game])
    (hpos : ∀ p ∈ v, ∀ q, p.2 = some q → 0 < q)
    (hsum : pySum (v.map Prod.snd) = some 1 ∨ pySum (v.map Prod.snd) = none) :
    (∀ p ∈ floorOn .wopr v, ∀ q, p.2 = some q → 0 < q) ∧
    (pySum ((floorOn .wopr v).map Prod.snd) = some 1 ∨
     pySum ((floorOn .wopr v).map Prod.snd) = none) := by
  rcases v with _ | ⟨⟨k1, x1⟩, _ | ⟨⟨k2, x2⟩, _ | ⟨⟨k3, x3⟩, _ | ⟨p4, t⟩⟩⟩⟩ <;>
    simp at hv
  obtain ⟨rfl, rfl, rfl⟩ := hv
  have h1 : ∀ q, x1 = some q → 0 < q :=
    fun q hq => hpos (Metric.wopr, x1) (by simp) q hq
  have h2 : ∀ q, x2 = some q → 0 < q :=
    fun q hq => hpos (Metric.targets_per_game, x2) (by simp) q hq
  have h3 : ∀ q, x3 = some q → 0 < q :=
    fun q hq => hpos (Metric.rz_opps_per_game, x3) (by simp) q hq
  simp only [List.map_cons, List.map_nil] at hsum
  by_cases ht : Flt x1 0.2 = true
  · cases hos : pySum [x2, x3] with
    | none =>
      have hmem : none ∈ [x2, x3] := (pySum_eq_none_iff _).mp hos
      have hred : floorOn .wopr
          [(.wopr, x1), (.targets_per_game, x2), (.rz_opps_per_game, x3)]
          = [(.wopr, some 0.35), (.targets_per_game, x2), (.rz_opps_per_game, x3)] := by
        simp [floorOn, ht, hos]
      rw [hred]
      constructor
      · intro p hp q hq
        simp at hp
        rcases hp with hp | hp | hp <;> rw [hp] at hq
        · simp at hq
          rw [← hq]
          norm_num
        · exact h2 q hq
        · exact h3 q hq
      · right
        rw [pySum_eq_none_iff]
        have hd : none = x2 ∨ none = x3 := by simpa using hmem
        simp only [List.map_cons, List.map_nil]
        rcases hd with h | h <;> simp [← h]
    | some s =>
      have hnn : none ∉ [x2, x3] := by
        intro hc
        rw [← pySum_eq_none_iff] at hc
        rw [hos] at hc
        exact Option.some_ne_none s hc
      rcases Option.ne_none_iff_exists'.mp
        (fun hc : x2 = none => hnn (by simp [hc])) with ⟨q2, rfl⟩
      rcases Option.ne_none_iff_exists'.mp
        (fun hc : x3 = none => hnn (by simp [hc])) with ⟨q3, rfl⟩
      have hq2 : 0 < q2 := h2 q2 rfl
      have hq3 : 0 < q3 := h3 q3 rfl
      have hs : s = q2 + (q3 + 0) := by
        have h0 := hos
        simp only [pySum, Fadd, Option.some.injEq] at h0
        exact h0.symm
      have hspos : 0 < s := by rw [hs]; linarith
      have hred : floorOn .wopr
          [(.wopr, x1), (.targets_per_game, some q2), (.rz_opps_per_game, some q3)]
          = [(.wopr, some 0.35),
             (.targets_per_game, some (q2 * (0.65 / s))),
             (.rz_opps_per_game, some (q3 * (0.65 / s)))] := by
        simp [floorOn, ht, hos, hspos]
      rw [hred]
      constructor
      · intro p hp q hq
        simp at hp
        rcases hp with hp | hp | hp <;> rw [hp] at hq <;> simp at hq <;> rw [← hq]
        · norm_num
        · exact mul_pos hq2 (div_pos (by norm_num) hspos)
        · exact mul_pos hq3 (div_pos (by norm_num) hspos)
      · left
        simp only [List.map_cons, List.map_nil, pySum, Fadd, Option.some.injEq]
        have hne : s ≠ 0 := ne_of_gt hspos
        field_simp
        rw [hs]
        ring
  · constructor
    · intro p hp q hq
      simp [floorOn, ht] at hp
      rcases hp with hp | hp | hp <;> rw [hp] at hq
      · exact h1 q hq
      · exact h2 q hq
      · exact h3 q hq
    · simpa [floorOn, ht] using hsum

/-! ## Helper lemmas: soundness of the weight learner on every path -/

theorem fallback_entries_pos (fb : WVec)
    (hfb : fb = qbFallback ∨ fb = rbFallback ∨ fb = wrFallback) :
    ∀ p ∈ fb, ∀ q, p.2 = some q → 0 < q := by
  intro p hp q hq
  rcases hfb with rfl | rfl | rfl
  · simp [qbFallback] at hp
    rcases hp with rfl | rfl | rfl <;> simp at hq <;> subst hq <;> norm_num
  · simp [rbFallback] at hp
    rcases hp with rfl | rfl | rfl | rfl <;> simp at hq <;> subst hq <;> norm_num
  · simp [wrFallback] at hp
    rcases hp with rfl | rfl | rfl <;> simp at hq <;> subst hq <;> norm_num

theorem fallback_sum_one (fb : WVec)
    (hfb : fb = qbFallback ∨ fb = rbFallback ∨ fb = wrFallback) :
    pySum (fb.map Prod.snd) = some 1 := by
  rcases hfb with rfl | rfl | rfl <;>
    norm_num [qbFallback, rbFallback, wrFallback, pySum, Fadd]

theorem gdw_eq (pop : List PlayerStatRecord) (pos : String) (cands : List Metric)
    (fb : WVec) (hc : posConfig pos = some (cands, fb)) :
    get_dynamic_weights pop pos =
      (if (qualifying pop pos).length < 10 then some fb
       else if listVarSum ((qualifying pop pos).map (·.fppg)) = 0 then some fb
       else if skipnaSum ((corrList (qualifying pop pos) cands).map Prod.snd) = 0 then some fb
       else some (applyFloors pos
         (normalizeW (skipnaSum ((corrList (qualifying pop pos) cands).map Prod.snd))
           (corrList (qualifying pop pos) cands)))) := by
  rw [get_dynamic_weights, hc]

/-- On every path, `get_dynamic_weights` returns a dictionary whose defined
entries are strictly positive, and whose entries sum (with NaN poisoning, as
Python's `sum` would) either to exactly 1 or to NaN. -/
theorem gdw_sound (pop : List PlayerStatRecord) (pos : String) (w : WVec)
    (h : get_dynamic_weights pop pos = some w) :
    (∀ p ∈ w, ∀ q, p.2 = some q → 0 < q) ∧
    (pySum (w.map Prod.snd) = some 1 ∨ pySum (w.map Prod.snd) = none) := by
  by_cases hqb : pos = "QB"
  · subst hqb
    rw [gdw_eq _ _ [.epa_per_play, .pass_attempts, .cpoe] qbFallback (by simp [posConfig])] at h
    split_ifs at h with h10 hvar hS
    · obtain rfl := Option.some.inj h
      exact ⟨fallback_entries_pos _ (Or.inl rfl), Or.inl (fallback_sum_one _ (Or.inl rfl))⟩
    · obtain rfl := Option.some.inj h
      exact ⟨fallback_entries_pos _ (Or.inl rfl), Or.inl (fallback_sum_one _ (Or.inl rfl))⟩
    · obtain rfl := Option.some.inj h
      exact ⟨fallback_entries_pos _ (Or.inl rfl), Or.inl (fallback_sum_one _ (Or.inl rfl))⟩
    · obtain rfl := Option.some.inj h
      rw [show ∀ v : WVec, applyFloors "QB" v = v from fun v => by simp [applyFloors]]
      exact ⟨norm_pos _ _ hS, norm_sum _ _ hS⟩
  by_cases hrb : pos = "RB"
  · subst hrb
    rw [gdw_eq _ _ [.ppr_usage_per_game, .ryoe, .rz_opps_per_game, .targets_per_game]
      rbFallback (by simp [posConfig])] at h
    split_ifs at h with h10 hvar hS
    · obtain rfl := Option.some.inj h
      exact ⟨fallback_entries_pos _ (Or.inr (Or.inl rfl)),
        Or.inl (fallback_sum_one _ (Or.inr (Or.inl rfl)))⟩
    · obtain rfl := Option.some.inj h
      exact ⟨fallback_entries_pos _ (Or.inr (Or.inl rfl)),
        Or.inl (fallback_sum_one _ (Or.inr (Or.inl rfl)))⟩
    · obtain rfl := Option.some.inj h
      exact ⟨fallback_entries_pos _ (Or.inr (Or.inl rfl)),
        Or.inl (fallback_sum_one _ (Or.inr (Or.inl rfl)))⟩
    · obtain rfl := Option.some.inj h
      rw [show ∀ v : WVec, applyFloors "RB" v = floorOn .targets_per_game v from
        fun v => by simp [applyFloors]]
      refine floorOn_rb _ ?_ (norm_pos _ _ hS) (norm_sum _ _ hS)
      rw [normalizeW_keys, corrList_keys]
  by_cases hwrte : pos = "WR" ∨ pos = "TE"
  · have hne : ¬ pos = "QB" := hqb
    have hne2 : ¬ pos = "RB" := hrb
    rw [gdw_eq _ _ [.wopr, .targets_per_game, .rz_opps_per_game] wrFallback
      (by rcases hwrte with rfl | rfl <;> simp [posConfig])] at h
    split_ifs at h with h10 hvar hS
    · obtain rfl := Option.some.inj h
      exact ⟨fallback_entries_pos _ (Or.inr (Or.inr rfl)),
        Or.inl (fallback_sum_one _ (Or.inr (Or.inr rfl)))⟩
    · obtain rfl := Option.some.inj h
      exact ⟨fallback_entries_pos _ (Or.inr (Or.inr rfl)),
        Or.inl (fallback_sum_one _ (Or.inr (Or.inr rfl)))⟩
    · obtain rfl := Option.some.inj h
      exact ⟨fallback_entries_pos _ (Or.inr (Or.inr rfl)),
        Or.inl (fallback_sum_one _ (Or.inr (Or.inr rfl)))⟩
    · obtain rfl := Option.some.inj h
      rw [show applyFloors pos (normalizeW
          (skipnaSum ((corrList (qualifying pop pos)
            [.wopr, .targets_per_game, .rz_opps_per_game]).map Prod.snd))
          (corrList (qualifying pop pos) [.wopr, .targets_per_game, .rz_opps_per_game]))
          = floorOn .wopr (normalizeW
          (skipnaSum ((corrList (qualifying pop pos)
            [.wopr, .targets_per_game, .rz_opps_per_game]).map Prod.snd))
          (corrList (qualifying pop pos) [.wopr, .targets_per_game, .rz_opps_per_game])) from
        by rcases hwrte with rfl | rfl <;> simp [applyFloors]]
      refine floorOn_wr _ ?_ (norm_pos _ _ hS) (norm_sum _ _ hS)
      rw [normalizeW_keys, corrList_keys]
  · exfalso
    rw [get_dynamic_weights] at h
    have hcfg : posConfig pos = none := by
      simp only [posConfig]
      rw [if_neg hqb, if_neg hrb, if_neg hwrte]
    rw [hcfg] at h
    simp at h

/-! ## Helper lemmas: the weighted stat score -/

theorem weighted_none_iff (w : WVec) (f : Metric → ℚ) :
    pySum (w.map (fun p => Fmul (some (f p.1)) p.2)) = none ↔
    pySum (w.map Prod.snd) = none := by
  rw [pySum_eq_none_iff, pySum_eq_none_iff]
  simp only [List.mem_map]
  constructor
  · rintro ⟨p, hp, hnone⟩
    refine ⟨p, hp, ?_⟩
    cases h2 : p.2 with
    | none => rfl
    | some b => rw [h2] at hnone; simp [Fmul] at hnone
  · rintro ⟨p, hp, hnone⟩
    exact ⟨p, hp, by rw [hnone]; rfl⟩

theorem pySum_weighted_bounds (w : WVec) (f : Metric → ℚ)
    (hw : ∀ p ∈ w, ∀ q, p.2 = some q → 0 ≤ q)
    (hf : ∀ m : Metric, 0 ≤ f m ∧ f m ≤ 1) :
    ∀ ss u : ℚ,
      pySum (w.map (fun p => Fmul (some (f p.1)) p.2)) = some ss →
      pySum (w.map Prod.snd) = some u →
      0 ≤ ss ∧ ss ≤ u := by
  induction w with
  | nil =>
    intro ss u hss hu
    simp only [List.map_nil, pySum, Option.some.injEq] at hss hu
    subst hss
    subst hu
    exact ⟨le_refl 0, le_refl 0⟩
  | cons p t ih =>
    intro ss u hss hu
    cases h2 : p.2 with
    | none =>
      rw [List.map_cons, pySum, h2] at hu
      simp [Fadd] at hu
    | some b =>
      have hb : 0 ≤ b := hw p (by simp) b h2
      rw [List.map_cons, pySum, h2] at hu
      rw [List.map_cons, pySum, h2] at hss
      cases hts : pySum (t.map Prod.snd) with
      | none =>
        rw [hts] at hu
        simp [Fadd] at hu
      | some u' =>
        rw [hts] at hu
        cases htw : pySum (t.map (fun p => Fmul (some (f p.1)) p.2)) with
        | none =>
          rw [htw] at hss
          simp [Fmul, Fadd] at hss
        | some ss' =>
          rw [htw] at hss
          simp only [Fmul, Fadd, Option.some.injEq] at hss hu
          obtain ⟨h0, h1⟩ := ih (fun p hp => hw p (by simp [hp])) ss' u' htw hts
          have hfb := hf p.1
          subst hss
          subst hu
          constructor
          · have : 0 ≤ f p.1 * b := mul_nonneg hfb.1 hb
            linarith
          · have : f p.1 * b ≤ b := mul_le_of_le_one_left hb hfb.2
            linarith

/-! ## Claim C1 -/

/-- C1 (amended).  Whenever `calculate_nexxt_score` returns a score at all
(it can raise on a NaN-poisoned weight vector), the score is an integer in
`[10, 99]`; and whenever the player's `games_played` is less than 3, the
0.91 sample-size penalty bounds the returned score by 91 — not by 90: a
player at the top of every percentile reaches `int(100 * 0.91) = 91`. -/
theorem C1_score_bounds (r : PlayerStatRecord) (pos : String)
    (pop : List PlayerStatRecord) (s : ℤ)
    (h : calculate_nexxt_score (some r) pos pop = some s) :
    10 ≤ s ∧ s ≤ 99 ∧ (r.games_played < 3 → s ≤ 91) := by
  simp only [calculate_nexxt_score] at h
  by_cases hpeer : peersOf pop pos = []
  · rw [if_pos hpeer] at h
    obtain rfl := Option.some.inj h
    refine ⟨by norm_num, by norm_num, fun _ => by norm_num⟩
  · rw [if_neg hpeer] at h
    split at h
    · simp at h
    · rename_i w hw
      split at h
      · simp at h
      · rename_i ss hss
        simp only [Option.some.injEq] at h
        obtain ⟨hwpos, hwsum⟩ := gdw_sound pop pos w hw
        have hsum1 : pySum (w.map Prod.snd) = some 1 := by
          rcases hwsum with h1 | h1
          · exact h1
          · exfalso
            have := (weighted_none_iff w (fun m =>
              pctOrHalf ((peersOf pop pos).map (fun q => metricVal q m))
                (metricVal r m))).mpr h1
            rw [hss] at this
            exact Option.some_ne_none ss this
        have hssb : 0 ≤ ss ∧ ss ≤ 1 :=
          pySum_weighted_bounds w
            (fun m => pctOrHalf ((peersOf pop pos).map (fun q => metricVal q m))
              (metricVal r m))
            (fun p hp q hq => le_of_lt (hwpos p hp q hq))
            (fun m => ⟨pctOrHalf_nonneg _ _, pctOrHalf_le_one _ _⟩)
            ss 1 hss hsum1
        have hfp0 : 0 ≤ pctOrHalf ((peersOf pop pos).map (·.fppg)) r.fppg :=
          pctOrHalf_nonneg _ _
        have hfp1 : pctOrHalf ((peersOf pop pos).map (·.fppg)) r.fppg ≤ 1 :=
          pctOrHalf_le_one _ _
        rw [← h]
        refine ⟨le_max_left _ _, ?_, ?_⟩
        · exact max_le (by norm_num) (le_trans (min_le_left _ _) (le_refl 99))
        · intro hg
          rw [if_pos hg]
          set fpct := pctOrHalf ((peersOf pop pos).map (·.fppg)) r.fppg with hfp
          have hraw0 : 0 ≤ (fpct * 0.50 + ss * 0.50) * 100 * 0.91 := by
            have := hssb.1
            positivity
          have hraw91 : (fpct * 0.50 + ss * 0.50) * 100 * 0.91 ≤ 91 := by
            nlinarith [hssb.1, hssb.2, hfp0, hfp1]
          have hpy : pyInt ((fpct * 0.50 + ss * 0.50) * 100 * 0.91) ≤ 91 :=
            pyInt_le_of_le _ 91 hraw0 (by exact_mod_cast hraw91)
          exact max_le (by norm_num) (le_trans (min_le_right _ _) hpy)

/-! ## Helper lemmas: `pyInt` on literals -/

theorem pyInt_natCast (n : ℕ) : pyInt ((n : ℕ) : ℚ) = n := by
  unfold pyInt
  rcases Nat.eq_zero_or_pos n with rfl | hn
  · simp
  · rw [Rat.num_natCast, Rat.den_natCast]
    rw [Int.sign_eq_one_of_pos (by exact_mod_cast hn), one_mul]
    simp

theorem pyInt_lit91 : pyInt (91 : ℚ) = 91 := by
  have h1 : (91 : ℚ) = ((91 : ℕ) : ℚ) := by norm_num
  rw [h1, pyInt_natCast]
  norm_num

/-! ## Claim C10 -/

/-- C10 (confirmed).  A falsy `player_data` (no aggregated record resolved)
makes `calculate_nexxt_score` return exactly 50, for every position and
peer population — the default fires before the peers, the weight vector or
any percentile are consulted, so the result does not depend on them. -/
theorem C10_empty_record_default (pos : String) (pop : List PlayerStatRecord) :
    calculate_nexxt_score none pos pop = some 50 := rfl

/-! ## Claim C2 -/

/-- C2 (confirmed).  `apply_replacement_level` is exactly the five-tier step
function of the spec with lower-closed boundaries, and in particular maps 90
to the 1.3 "Elite" tier and 89.999 to the 1.0 "High Starter" tier. -/
theorem C2_trade_step :
    (∀ s : ℚ, apply_replacement_level s = spec_trade_step s) ∧
    apply_replacement_level 90 = (1.3, "Elite (1.3x)") ∧
    apply_replacement_level 89.999 = (1.0, "High Starter (1.0x)") := by
  refine ⟨fun s => ?_, by norm_num [apply_replacement_level],
    by norm_num [apply_replacement_level]⟩
  by_cases h90 : 90 ≤ s
  · simp [apply_replacement_level, spec_trade_step, h90]
  · have h90' : s < 90 := not_le.mp h90
    by_cases h80 : 80 ≤ s
    · simp [apply_replacement_level, spec_trade_step, h90, h80, h90']
    · have h80' : s < 80 := not_le.mp h80
      by_cases h70 : 70 ≤ s
      · simp [apply_replacement_level, spec_trade_step, h90, h80, h70, h80']
      · have h70' : s < 70 := not_le.mp h70
        by_cases h60 : 60 ≤ s
        · simp [apply_replacement_level, spec_trade_step, h90, h80, h70, h60, h70']
        · simp [apply_replacement_level, spec_trade_step, h90, h80, h70, h60]

/-! ## Claim C4 -/

/-- C4 counterexample.  A player with 2 passing-role games and 5 rushing-role
games: the rushing merge leaves `games_played` at the passing count 2, not
the claimed pointwise maximum 5. -/
theorem C4_pass_rush_games_counterexample :
    (buildProfile (some { games := 2, yards := 0, tds := 0, ints := 0 })
        (some { games := 5, yards := 0, tds := 0, carries := 0, rzCarries := 0, fumbles := 0 })
        none).map PlayerGameProfile.games_played = some 2 ∧
    max 2 5 = 5 ∧ (2 : ℕ) ≠ 5 := by
  refine ⟨rfl, rfl, by decide⟩

/-- C4 (amended).  `games_played` is the pointwise maximum of role game
counts only where the receiving merge is involved: merging receiving into an
existing (passing or rushing, or both) entry takes the maximum with the
receiving count, and in particular 5 overlapping rushing and receiving games
report 5; but the rushing merge into an existing passing entry leaves the
passing game count unchanged. -/
theorem C4_games_across_roles :
    (∀ (p : PassAgg) (ru : RushAgg),
      (buildProfile (some p) (some ru) none).map PlayerGameProfile.games_played
        = some (max p.games 1)) ∧
    (∀ (p : PassAgg) (ru : RushAgg) (re : RecAgg),
      (buildProfile (some p) (some ru) (some re)).map PlayerGameProfile.games_played
        = some (max (max p.games 1) (max re.games 1))) ∧
    (∀ (ru : RushAgg) (re : RecAgg),
      (buildProfile none (some ru) (some re)).map PlayerGameProfile.games_played
        = some (max (max ru.games 1) (max re.games 1))) ∧
    (∀ (p : PassAgg) (re : RecAgg),
      (buildProfile (some p) none (some re)).map PlayerGameProfile.games_played
        = some (max (max p.games 1) (max re.games 1))) ∧
    (buildProfile none
        (some { games := 5, yards := 0, tds := 0, carries := 0, rzCarries := 0, fumbles := 0 })
        (some { games := 5, receptions := 0, yards := 0, tds := 0, targets := 0,
                rzTargets := 0, fumbles := 0 })).map PlayerGameProfile.games_played
      = some 5 :=
  ⟨fun _ _ => rfl, fun _ _ _ => rfl, fun _ _ => rfl, fun _ _ => rfl, rfl⟩

/-! ## Claim C5 -/

/-- C5 counterexample.  A player with 5 rushing-role games (10 carries) and 3
receiving-role games (6 targets): the profile reports `games_played = 5` but
`targets_per_game = 6 / 3 = 2`, not the claimed `6 / max(games_played, 1) =
6 / 5`. -/
theorem C5_dual_role_rate_counterexample :
    (buildProfile none
        (some { games := 5, yards := 0, tds := 0, carries := 10, rzCarries := 0, fumbles := 0 })
        (some { games := 3, receptions := 0, yards := 0, tds := 0, targets := 6,
                rzTargets := 0, fumbles := 0 })).map PlayerGameProfile.targets_per_game
      = some 2 ∧
    (buildProfile none
        (some { games := 5, yards := 0, tds := 0, carries := 10, rzCarries := 0, fumbles := 0 })
        (some { games := 3, receptions := 0, yards := 0, tds := 0, targets := 6,
                rzTargets := 0, fumbles := 0 })).map PlayerGameProfile.games_played
      = some 5 ∧
    (2 : ℚ) ≠ 6 / 5 := by
  refine ⟨?_, rfl, by norm_num⟩
  simp [buildProfile, applyRushing, applyReceiving]
  norm_num

/-- C5 (amended).  Each per-game rate divides a role's accumulated total by
that role's own game count `max(role_games, 1)`, not by the profile's
cross-role game count: for a rusher-receiver, `carries_per_game` and the
rushing part of `rz_opps_per_game` are divided by the rushing game count,
`targets_per_game` and the receiving parts by the receiving game count, and
`fppg` is the sum of the per-role points-per-game; for a single-role player
the two denominators coincide, so the claim's formula holds there. -/
theorem C5_per_role_rates :
    (∀ (ru : RushAgg) (re : RecAgg),
      (buildProfile none (some ru) (some re)).map PlayerGameProfile.carries_per_game
        = some (ru.carries / ((max ru.games 1 : ℕ) : ℚ)) ∧
      (buildProfile none (some ru) (some re)).map PlayerGameProfile.targets_per_game
        = some (re.targets / ((max re.games 1 : ℕ) : ℚ)) ∧
      (buildProfile none (some ru) (some re)).map PlayerGameProfile.rz_opps_per_game
        = some (ru.rzCarries / ((max ru.games 1 : ℕ) : ℚ)
            + re.rzTargets / ((max re.games 1 : ℕ) : ℚ)) ∧
      (buildProfile none (some ru) (some re)).map PlayerGameProfile.fppg
        = some ((ru.yards * 0.1 + ru.tds * 6 - ru.fumbles * 2) / ((max ru.games 1 : ℕ) : ℚ)
            + (re.yards * 0.1 + re.tds * 6 + re.receptions * 1.0 - re.fumbles * 2)
              / ((max re.games 1 : ℕ) : ℚ))) ∧
    (∀ p : PassAgg,
      (buildProfile (some p) none none).map PlayerGameProfile.fppg
        = some ((p.yards * 0.04 + p.tds * 4 - p.ints * 2) / ((max p.games 1 : ℕ) : ℚ)) ∧
      (buildProfile (some p) none none).map PlayerGameProfile.games_played
        = some (max p.games 1)) ∧
    (∀ ru : RushAgg,
      (buildProfile none (some ru) none).map PlayerGameProfile.carries_per_game
        = some (ru.carries / ((max ru.games 1 : ℕ) : ℚ)) ∧
      (buildProfile none (some ru) none).map PlayerGameProfile.games_played
        = some (max ru.games 1)) ∧
    (∀ re : RecAgg,
      (buildProfile none none (some re)).map PlayerGameProfile.targets_per_game
        = some (re.targets / ((max re.games 1 : ℕ) : ℚ)) ∧
      (buildProfile none none (some re)).map PlayerGameProfile.games_played
        = some (max re.games 1)) := by
  refine ⟨fun ru re => ⟨rfl, rfl, rfl, ?_⟩, fun p => ⟨rfl, rfl⟩,
    fun ru => ⟨rfl, rfl⟩, fun re => ⟨rfl, rfl⟩⟩
  simp [buildProfile, applyRushing, applyReceiving]

/-! ## Claim C6 -/

/-- C6 counterexample.  Two peers both at fppg 2 and a player at 2: scipy's
`kind='rank'` percentile is 0.75, not the claimed lower-or-equal fraction 1. -/
theorem C6_tied_percentile_counterexample :
    pctOrHalf [2, 2] 2 = 3 / 4 ∧ spec_frac_le [2, 2] 2 = 1 ∧ (3 / 4 : ℚ) ≠ 1 := by
  refine ⟨?_, ?_, by norm_num⟩
  · norm_num [pctOrHalf, pctRank, List.filter_cons]
  · norm_num [spec_frac_le, List.filter_cons]

/-- C6 (amended).  The fppg percentile of `calculate_nexxt_score` is scipy's
`rank` percentile, which equals the lower-or-equal fraction of peers exactly
when the player's value ties at most one peer value (in particular whenever
the only tie is the player's own record); with two or more tied peers the
rank average is strictly smaller.  With fewer than 2 peers it defaults to
0.5, as claimed. -/
theorem C6_percentile_rank (vals : List ℚ) (x : ℚ) :
    (1 < vals.length → (vals.filter (fun v => v = x)).length ≤ 1 →
      pctOrHalf vals x = spec_frac_le vals x) ∧
    (¬ 1 < vals.length → pctOrHalf vals x = 0.5) := by
  constructor
  · intro hlen ht
    have hn : (0 : ℚ) < (vals.length : ℚ) := by
      exact_mod_cast Nat.lt_of_lt_of_le Nat.zero_lt_one hlen.le
    have hne : (vals.length : ℚ) ≠ 0 := ne_of_gt hn
    have hsplit := length_filter_le_split vals x
    simp only [pctOrHalf, if_pos hlen, pctRank, spec_frac_le]
    rcases Nat.le_one_iff_eq_zero_or_eq_one.mp ht with h0 | h1
    · rw [h0, Nat.add_zero] at hsplit
      rw [hsplit, if_neg (lt_irrefl _)]
      push_cast
      field_simp
      ring
    · rw [h1] at hsplit
      rw [hsplit, if_pos (Nat.lt_succ_self _)]
      push_cast
      field_simp
      ring
  · intro hlen
    rw [pctOrHalf, if_neg hlen]

theorem C6_percentile_rank_witness :
    pctOrHalf [1, 2] 2 = spec_frac_le [1, 2] 2 ∧ pctOrHalf [5] 0 = 0.5 := by
  constructor
  · refine (C6_percentile_rank [1, 2] 2).1 (by norm_num) ?_
    norm_num [List.filter_cons]
  · exact (C6_percentile_rank [5] 0).2 (by norm_num)

/-! ## Claim C8 -/

/-- C8 (confirmed).  With fewer than 10 qualifying players (position match,
at least 3 games) the weight learner returns exactly the hand-authored static
fallback vector for that position, whatever the rest of the population looks
like — the guard precedes every correlation computation. -/
theorem C8_static_fallback (pop : List PlayerStatRecord) :
    ((qualifying pop "QB").length < 10 → get_dynamic_weights pop "QB" = some qbFallback) ∧
    ((qualifying pop "RB").length < 10 → get_dynamic_weights pop "RB" = some rbFallback) ∧
    ((qualifying pop "WR").length < 10 → get_dynamic_weights pop "WR" = some wrFallback) ∧
    ((qualifying pop "TE").length < 10 → get_dynamic_weights pop "TE" = some wrFallback) := by
  refine ⟨fun h => ?_, fun h => ?_, fun h => ?_, fun h => ?_⟩
  · rw [gdw_eq _ _ [.epa_per_play, .pass_attempts, .cpoe] qbFallback
      (by simp [posConfig]), if_pos h]
  · rw [gdw_eq _ _ [.ppr_usage_per_game, .ryoe, .rz_opps_per_game, .targets_per_game]
      rbFallback (by simp [posConfig]), if_pos h]
  · rw [gdw_eq _ _ [.wopr, .targets_per_game, .rz_opps_per_game] wrFallback
      (by simp [posConfig]), if_pos h]
  · rw [gdw_eq _ _ [.wopr, .targets_per_game, .rz_opps_per_game] wrFallback
      (by simp [posConfig]), if_pos h]

theorem C8_static_fallback_witness :
    get_dynamic_weights [] "QB" = some qbFallback ∧
    get_dynamic_weights [] "RB" = some rbFallback ∧
    get_dynamic_weights [] "WR" = some wrFallback ∧
    get_dynamic_weights [] "TE" = some wrFallback := by
  have h := C8_static_fallback []
  exact ⟨h.1 (by simp [qualifying]), h.2.1 (by simp [qualifying]),
    h.2.2.1 (by simp [qualifying]), h.2.2.2 (by simp [qualifying])⟩

/-! ## Claim C7 -/

/-- C7 counterexample.  Ten qualifying quarterbacks with varying fppg but
all-null CPOE: the CPOE column is constant after `fillna(0)`, its Pearson
correlation is NaN, pandas' `clip` and the normalization keep it NaN, and
the returned vector carries a NaN entry, so its entries do not sum to 1. -/
theorem C7_nan_weights_counterexample :
    get_dynamic_weights popNaN "QB"
      = some [(.epa_per_play, some (1 / 2)), (.pass_attempts, some (1 / 2)),
              (.cpoe, none)] ∧
    pySum (([(.epa_per_play, some (1 / 2)), (.pass_attempts, some (1 / 2)),
      (Metric.cpoe, none)] : WVec).map Prod.snd) = none ∧
    (none : Option ℚ) ≠ some 1 := by
  refine ⟨?_, by simp [pySum, Fadd], by simp⟩
  norm_num [get_dynamic_weights, posConfig, qualifying, corrList, normalizeW, skipnaSum,
    clipCorr, pearsonQ, listVarSum, listCovSum, listMean, metricVal,
    qbFallback, popNaN, qbFlat, List.filter, max_def, List.filterMap_cons,
    List.filterMap_nil, id_eq, List.sum_cons, List.sum_nil]
  simp [applyFloors]

/-- C7 (amended).  Every defined entry of the returned weight vector is
non-negative on every path, and whenever every entry is defined (no
zero-variance candidate metric turned a correlation into NaN) the entries
sum to exactly 1; a NaN entry, however, poisons the sum. -/
theorem C7_weight_vector (pop : List PlayerStatRecord) (pos : String) (w : WVec)
    (h : get_dynamic_weights pop pos = some w) :
    (∀ p ∈ w, ∀ q, p.2 = some q → 0 ≤ q) ∧
    ((∀ p ∈ w, p.2 ≠ none) → pySum (w.map Prod.snd) = some 1) := by
  obtain ⟨hpos, hsum⟩ := gdw_sound pop pos w h
  refine ⟨fun p hp q hq => le_of_lt (hpos p hp q hq), fun hdef => ?_⟩
  rcases hsum with h1 | h1
  · exact h1
  · exfalso
    rw [pySum_eq_none_iff, List.mem_map] at h1
    obtain ⟨p, hp, hp2⟩ := h1
    exact hdef p hp hp2

theorem C7_weight_vector_witness :
    pySum ((qbFallback : WVec).map Prod.snd) = some 1 := by
  have heval : get_dynamic_weights [] "QB" = some qbFallback := by
    rw [gdw_eq _ _ [.epa_per_play, .pass_attempts, .cpoe] qbFallback
      (by simp [posConfig]), if_pos (by simp [qualifying])]
  refine (C7_weight_vector [] "QB" qbFallback heval).2 ?_
  intro p hp
  simp [qbFallback] at hp
  rcases hp with rfl | rfl | rfl <;> simp

/-! ## Claim C1 (continued): counterexample and witness -/

/-- The concrete evaluation shared by C1's counterexample and witness: the
dominant one-game quarterback of `popPenalty` scores exactly 91. -/
theorem popPenalty_eval :
    calculate_nexxt_score (some (qbProbe 1 10 5 30 (some 5))) "QB" popPenalty
      = some 91 := by
  norm_num [calculate_nexxt_score, get_dynamic_weights, posConfig, qualifying, peersOf,
    qbFallback, pctOrHalf, pctRank, metricVal, pySum, Fadd, Fmul, popPenalty, qbProbe,
    applyFloors, floorOn, normalizeW, corrList, skipnaSum, List.filter, pyInt_lit91,
    min_def, max_def]
  simp

/-- C1 counterexample.  A one-game player at the top of every percentile:
`int(((1·0.5 + 1·0.5) · 100) · 0.91) = 91`, so a sub-3-game player can score
91, refuting the claimed bound of 90. -/
theorem C1_penalized_score_91_counterexample :
    calculate_nexxt_score (some (qbProbe 1 10 5 30 (some 5))) "QB" popPenalty
      = some 91 ∧
    (qbProbe 1 10 5 30 (some 5)).games_played < 3 ∧ ¬((91 : ℤ) ≤ 90) := by
  exact ⟨popPenalty_eval, by norm_num [qbProbe], by norm_num⟩

theorem C1_score_bounds_witness :
    (10 : ℤ) ≤ 91 ∧ (91 : ℤ) ≤ 99 ∧ (91 : ℤ) ≤ 91 := by
  have h := C1_score_bounds (qbProbe 1 10 5 30 (some 5)) "QB" popPenalty 91 popPenalty_eval
  exact ⟨h.1, h.2.1, h.2.2 (by norm_num [qbProbe])⟩

/-! ## Claim C3 -/

theorem floorOn_rb_target (v : WVec)
    (hv : v.map Prod.fst
      = [.ppr_usage_per_game, .ryoe, .rz_opps_per_game, .targets_per_game]) :
    ∀ q : ℚ, ((floorOn .targets_per_game v).find?
        (fun p => p.1 = Metric.targets_per_game)).map Prod.snd = some (some q) →
      (0.2 : ℚ) ≤ q := by
  rcases v with _ | ⟨⟨k1, x1⟩, _ | ⟨⟨k2, x2⟩, _ | ⟨⟨k3, x3⟩, _ | ⟨⟨k4, x4⟩, _ | ⟨p5, t⟩⟩⟩⟩⟩ <;>
    simp at hv
  obtain ⟨rfl, rfl, rfl, rfl⟩ := hv
  intro q hq
  by_cases ht : Flt x4 0.2 = true
  · cases hos : pySum [x1, x2, x3] with
    | none =>
      simp [floorOn, ht, hos, List.find?] at hq
      rw [← hq]
      norm_num
    | some s =>
      by_cases hs : 0 < s
      · simp [floorOn, ht, hos, hs, List.find?] at hq
        rw [← hq]
        norm_num
      · simp [floorOn, ht, hos, hs, List.find?] at hq
        rw [← hq]
        norm_num
  · simp [floorOn, ht, List.find?] at hq
    subst hq
    simp [Flt] at ht
    linarith

theorem floorOn_wr_wopr (v : WVec)
    (hv : v.map Prod.fst = [.wopr, .targets_per_game, .rz_opps_per_game]) :
    ∀ q : ℚ, ((floorOn .wopr v).find? (fun p => p.1 = Metric.wopr)).map Prod.snd
        = some (some q) → (0.2 : ℚ) ≤ q := by
  rcases v with _ | ⟨⟨k1, x1⟩, _ | ⟨⟨k2, x2⟩, _ | ⟨⟨k3, x3⟩, _ | ⟨p4, t⟩⟩⟩⟩ <;>
    simp at hv
  obtain ⟨rfl, rfl, rfl⟩ := hv
  intro q hq
  by_cases ht : Flt x1 0.2 = true
  · cases hos : pySum [x2, x3] with
    | none =>
      simp [floorOn, ht, hos, List.find?] at hq
      rw [← hq]
      norm_num
    | some s =>
      by_cases hs : 0 < s
      · simp [floorOn, ht, hos, hs, List.find?] at hq
        rw [← hq]
        norm_num
      · simp [floorOn, ht, hos, hs, List.find?] at hq
        rw [← hq]
        norm_num
  · simp [floorOn, ht, List.find?] at hq
    subst hq
    simp [Flt] at ht
    linarith

/-- C3 counterexample.  With no qualifying running backs the learner returns
the static RB fallback, which assigns `targets_per_game` the weight 0.1,
below the claimed floor of 0.20. -/
theorem C3_rb_fallback_counterexample :
    get_dynamic_weights [] "RB" = some rbFallback ∧
    ((rbFallback : WVec).find? (fun p => p.1 = Metric.targets_per_game)).map Prod.snd
      = some (some 0.1) ∧
    ¬((0.2 : ℚ) ≤ 0.1) := by
  refine ⟨?_, by simp [rbFallback, List.find?], by norm_num⟩
  rw [gdw_eq _ _ [.ppr_usage_per_game, .ryoe, .rz_opps_per_game, .targets_per_game]
    rbFallback (by simp [posConfig]), if_pos (by simp [qualifying])]

/-- C3 (amended).  On the correlation path (any result other than the static
fallback), the post-processing floor guarantees that a defined
`targets_per_game` weight for running backs, and a defined `wopr` weight for
receivers, is at least 0.20, and the vector still sums to 1 whenever all its
entries are defined (NaN-free); the static RB fallback, however, assigns
`targets_per_game` only 0.1 — the floor is never applied to fallbacks. -/
theorem C3_weight_floors (pop : List PlayerStatRecord) (w : WVec) :
    (get_dynamic_weights pop "RB" = some w → w ≠ rbFallback →
      ((∀ q : ℚ, (w.find? (fun p => p.1 = Metric.targets_per_game)).map Prod.snd
          = some (some q) → (0.2 : ℚ) ≤ q) ∧
       (pySum (w.map Prod.snd) = some 1 ∨ pySum (w.map Prod.snd) = none))) ∧
    (get_dynamic_weights pop "WR" = some w → w ≠ wrFallback →
      ((∀ q : ℚ, (w.find? (fun p => p.1 = Metric.wopr)).map Prod.snd
          = some (some q) → (0.2 : ℚ) ≤ q) ∧
       (pySum (w.map Prod.snd) = some 1 ∨ pySum (w.map Prod.snd) = none))) := by
  constructor
  · intro h hne
    refine ⟨?_, (gdw_sound pop "RB" w h).2⟩
    rw [gdw_eq _ _ [.ppr_usage_per_game, .ryoe, .rz_opps_per_game, .targets_per_game]
      rbFallback (by simp [posConfig])] at h
    split_ifs at h with h10 hvar hS
    · exact absurd (Option.some.inj h).symm hne
    · exact absurd (Option.some.inj h).symm hne
    · exact absurd (Option.some.inj h).symm hne
    · obtain rfl := Option.some.inj h
      rw [show ∀ v : WVec, applyFloors "RB" v = floorOn .targets_per_game v from
        fun v => by simp [applyFloors]]
      exact floorOn_rb_target _ (by rw [normalizeW_keys, corrList_keys])
  · intro h hne
    refine ⟨?_, (gdw_sound pop "WR" w h).2⟩
    rw [gdw_eq _ _ [.wopr, .targets_per_game, .rz_opps_per_game]
      wrFallback (by simp [posConfig])] at h
    split_ifs at h with h10 hvar hS
    · exact absurd (Option.some.inj h).symm hne
    · exact absurd (Option.some.inj h).symm hne
    · exact absurd (Option.some.inj h).symm hne
    · obtain rfl := Option.some.inj h
      rw [show ∀ v : WVec, applyFloors "WR" v = floorOn .wopr v from
        fun v => by simp [applyFloors]]
      exact floorOn_wr_wopr _ (by rw [normalizeW_keys, corrList_keys])

/-- The concrete correlation-path evaluation for ten qualifying running
backs with orthogonal metric columns: equal weights of 1/4. -/
theorem popLearnRB_eval :
    get_dynamic_weights popLearnRB "RB"
      = some [(.ppr_usage_per_game, some (1 / 4)), (.ryoe, some (1 / 4)),
              (.rz_opps_per_game, some (1 / 4)), (.targets_per_game, some (1 / 4))] := by
  rw [gdw_eq _ _ [.ppr_usage_per_game, .ryoe, .rz_opps_per_game, .targets_per_game]
    rbFallback (by simp [posConfig])]
  norm_num [qualifying, corrList, normalizeW, skipnaSum,
    clipCorr, pearsonQ, listVarSum, listCovSum, listMean, metricVal,
    popLearnRB, rbFlat, List.filter_cons, max_def, List.filterMap_cons,
    List.filterMap_nil, id_eq, List.sum_cons, List.sum_nil]
  simp [applyFloors, floorOn, Flt, pySum, Fadd]
  norm_num

/-- The concrete correlation-path evaluation for ten qualifying receivers:
equal weights of 1/3. -/
theorem popLearnWR_eval :
    get_dynamic_weights popLearnWR "WR"
      = some [(.wopr, some (1 / 3)), (.targets_per_game, some (1 / 3)),
              (.rz_opps_per_game, some (1 / 3))] := by
  rw [gdw_eq _ _ [.wopr, .targets_per_game, .rz_opps_per_game]
    wrFallback (by simp [posConfig])]
  norm_num [qualifying, corrList, normalizeW, skipnaSum,
    clipCorr, pearsonQ, listVarSum, listCovSum, listMean, metricVal,
    popLearnWR, wrFlat, List.filter_cons, max_def, List.filterMap_cons,
    List.filterMap_nil, id_eq, List.sum_cons, List.sum_nil]
  simp [applyFloors, floorOn, Flt, pySum, Fadd]
  norm_num

theorem C3_weight_floors_witness : (0.2 : ℚ) ≤ 1 / 4 ∧ (0.2 : ℚ) ≤ 1 / 3 := by
  have hneR : ([(.ppr_usage_per_game, some (1 / 4)), (.ryoe, some (1 / 4)),
      (.rz_opps_per_game, some (1 / 4)), (.targets_per_game, some (1 / 4))] : WVec)
      ≠ rbFallback := by
    intro hc
    rw [rbFallback] at hc
    simp at hc
    norm_num at hc
  have hneW : ([(.wopr, some (1 / 3)), (.targets_per_game, some (1 / 3)),
      (.rz_opps_per_game, some (1 / 3))] : WVec) ≠ wrFallback := by
    intro hc
    rw [wrFallback] at hc
    simp at hc
    norm_num at hc
  have hR := (C3_weight_floors popLearnRB _).1 popLearnRB_eval hneR
  have hW := (C3_weight_floors popLearnWR _).2 popLearnWR_eval hneW
  exact ⟨hR.1 (1 / 4) (by simp [List.find?]), hW.1 (1 / 3) (by simp [List.find?])⟩

/-! ## Claim C9 -/

theorem fill_fppg (r : PlayerStatRecord) : (fillNulls r).fppg = r.fppg := rfl

theorem fill_games (r : PlayerStatRecord) :
    (fillNulls r).games_played = r.games_played := rfl

theorem fill_position (r : PlayerStatRecord) : (fillNulls r).position = r.position := rfl

theorem metricVal_fill (r : PlayerStatRecord) (m : Metric) :
    metricVal (fillNulls r) m = metricVal r m := by
  cases m <;> simp [metricVal, fillNulls]

theorem filter_map_fill (l : List PlayerStatRecord) (p : PlayerStatRecord → Bool)
    (hp : ∀ r, p (fillNulls r) = p r) :
    (l.map fillNulls).filter p = (l.filter p).map fillNulls := by
  induction l with
  | nil => rfl
  | cons a t ih =>
    by_cases h : p a = true
    · simp [List.filter_cons, hp, h, ih]
    · simp [List.filter_cons, hp, h, ih]

theorem peers_fill (pop : List PlayerStatRecord) (pos : String) :
    peersOf (pop.map fillNulls) pos = (peersOf pop pos).map fillNulls := by
  refine filter_map_fill pop _ (fun r => ?_)
  simp [fillNulls]

theorem qual_fill (pop : List PlayerStatRecord) (pos : String) :
    qualifying (pop.map fillNulls) pos = (qualifying pop pos).map fillNulls := by
  refine filter_map_fill pop _ (fun r => ?_)
  simp [fillNulls]

theorem fppgcol_fill (l : List PlayerStatRecord) :
    (l.map fillNulls).map (fun x => x.fppg) = l.map (fun x => x.fppg) := by
  simp [List.map_map, Function.comp, fillNulls]

theorem col_fill (l : List PlayerStatRecord) (m : Metric) :
    (l.map fillNulls).map (fun q => metricVal q m) = l.map (fun q => metricVal q m) := by
  simp [List.map_map, Function.comp, metricVal_fill]

theorem corrList_fill (data : List PlayerStatRecord) (cands : List Metric) :
    corrList (data.map fillNulls) cands = corrList data cands := by
  simp only [corrList, col_fill, fppgcol_fill]

theorem gdw_fill (pop : List PlayerStatRecord) (pos : String) :
    get_dynamic_weights (pop.map fillNulls) pos = get_dynamic_weights pop pos := by
  cases hc : posConfig pos with
  | none => simp only [get_dynamic_weights, hc]
  | some cfg =>
    obtain ⟨cands, fb⟩ := cfg
    rw [gdw_eq _ _ cands fb hc, gdw_eq _ _ cands fb hc]
    rw [qual_fill, List.length_map, corrList_fill, fppgcol_fill]

theorem calc_fill (pd : Option PlayerStatRecord) (pos : String)
    (pop : List PlayerStatRecord) :
    calculate_nexxt_score (pd.map fillNulls) pos (pop.map fillNulls)
      = calculate_nexxt_score pd pos pop := by
  cases pd with
  | none => rfl
  | some r =>
    simp only [Option.map_some', calculate_nexxt_score]
    rw [peers_fill, gdw_fill]
    by_cases hpe : peersOf pop pos = []
    · simp [hpe]
    · rw [if_neg (by simp [hpe]), if_neg hpe]
      simp only [col_fill, fppgcol_fill, metricVal_fill, fill_fppg, fill_games]

/-- C9 (confirmed).  A null advanced metric is read as 0 by the scorer's
metric extraction, for the scored player and for every peer alike; and
replacing every null metric by an explicit 0 — in the scored record and in
the whole peer population — changes nothing: the peers remain exactly the
same records (none are excluded from the ranking population) and the final
score is identical. -/
theorem C9_null_as_zero :
    (∀ r : PlayerStatRecord,
      metricVal { r with cpoe := none } Metric.cpoe = 0 ∧
      metricVal { r with ryoe := none } Metric.ryoe = 0 ∧
      metricVal { r with avg_cushion := none } Metric.avg_cushion = 0) ∧
    (∀ (pop : List PlayerStatRecord) (pos : String),
      peersOf (pop.map fillNulls) pos = (peersOf pop pos).map fillNulls) ∧
    (∀ (pd : Option PlayerStatRecord) (pos : String) (pop : List PlayerStatRecord),
      calculate_nexxt_score (pd.map fillNulls) pos (pop.map fillNulls)
        = calculate_nexxt_score pd pos pop) :=
  ⟨fun _ => ⟨rfl, rfl, rfl⟩, peers_fill, calc_fill⟩
